import Mathlib

set_option autoImplicit false

/-!
Shallow embedding of `src/quectodom.js`.

The DOM is modelled as an immutable tree of nodes; each wrapper object of the
source owns exactly one node, so a wrapper is represented by the node it owns,
and the mutating wrapper methods become pure functions from node to node.
JavaScript values that flow into `ParentWrapper.append` and into the cells of
`TableMaker.appendRows` are modelled by the inductive type `JSVal` below.
Fallible DOM operations (the source lets a platform `TypeError` escape when
`appendChild` receives `undefined`) return `Option`.
-/

/-- A DOM node: an element node carries its tag name, its `id`, its class list
(`classList`, a token set kept in insertion order) and its child list; a text
node carries its textual content. -/
inductive Node : Type where
  | elem (tag : String) (id : String) (classes : List String) (children : List Node)
  | text (content : String)
  deriving Repr

namespace Node

/-- True exactly for element nodes.  The live `element.children` collection of
the DOM contains only these, while `childNodes` also contains text nodes. -/
def isElem : Node → Bool
  | elem _ _ _ _ => true
  | text _ => false

/-- All children of a node, text nodes included (`childNodes`). -/
def childNodes : Node → List Node
  | elem _ _ _ ch => ch
  | text _ => []

/-- The class list of a node (`classList`); a text node has none. -/
def classList : Node → List String
  | elem _ _ cs _ => cs
  | text _ => []

/-- DOM `appendChild`: adds the given node as the last child.  On a text node
this is unreachable in the source (parents are always elements). -/
def appendChild : Node → Node → Node
  | elem t i cs ch, c => elem t i cs (ch ++ [c])
  | text s, _ => text s

end Node

/-- DOMTokenList `classList.add`: adds the token unless it is already present,
so the class list behaves as a set kept in insertion order. -/
def classListAdd (cs : List String) (cls : String) : List String :=
  if cls ∈ cs then cs else cs ++ [cls]

/-- Applies `classListAdd` on the class list of an element node. -/
def Node.addClass : Node → String → Node
  | .elem t i cs ch, cls => .elem t i (classListAdd cs cls) ch
  | .text s, _ => .text s

/-- DOMWrapper.addClasses: for each argument, if it is truthy (here: a
non-empty string) add it to the class token set; returns the wrapper. -/
def DOMWrapper.addClasses (n : Node) (classes : List String) : Node :=
  classes.foldl (fun n cls => if cls = "" then n else n.addClass cls) n

/-- TextNodeWrapper constructor: `document.createTextNode(text || "")`; called
with no argument (`none`) the text defaults to the empty string. -/
def TextNodeWrapper.make (t : Option String) : Node :=
  Node.text (t.getD "")

/-- ElementWrapper constructor: `document.createElement(tag)` yields a fresh
element with no id, no classes and no children. -/
def ElementWrapper.make (tag : String) : Node :=
  Node.elem tag "" [] []

/-- A JavaScript value as it reaches `append` or a table cell:
`jsNull` is `null` or `undefined`; `prim s` is a non-object value whose
`toString()` is `s` (number, string, boolean, ...); `wrap n` is a `DOMWrapper`
instance owning node `n`; `obj classes content` is any non-null object that is
not a `DOMWrapper` (a plain record or an array) — only its `classes` and
`content` properties are ever read by the source, so the model carries exactly
those: `classes = none` when the property is absent or falsy, and `content`
reads as `jsNull` when the property is absent; such an object has no `element`
property. -/
inductive JSVal : Type where
  | jsNull
  | prim (s : String)
  | wrap (n : Node)
  | obj (classes : Option (List String)) (content : JSVal)
  deriving Repr

/-- Resolution of one `append` argument to the node that gets appended, per
the body of ParentWrapper.append: `null`/`undefined` becomes a blank text
node, a non-object becomes a text node of its `toString()`, and anything else
is used via its `element` property — a wrapper contributes its owned node,
while a plain object has `element === undefined`, so `appendChild` receives
`undefined` and throws a platform `TypeError` (modelled as `none`). -/
def resolveChild : JSVal → Option Node
  | .jsNull => some (TextNodeWrapper.make none)
  | .prim s => some (TextNodeWrapper.make (some s))
  | .wrap n => some n
  | .obj _ _ => none

/-- ParentWrapper.append: resolves each argument in order and appends the
resulting node as the last child; a failing resolution aborts the call. -/
def ParentWrapper.append (n : Node) (children : List JSVal) : Option Node :=
  children.foldlM (fun p c => (resolveChild c).map p.appendChild) n

/-- DOM `removeChild(children[0])` step of the `clear` loop: removes the first
element child, leaving any text nodes before it in place. -/
def removeFirstElemChild : List Node → List Node
  | [] => []
  | c :: rest => if c.isElem then rest else c :: removeFirstElemChild rest

/-- The `while (children.length > 0)` loop of ParentWrapper.clear on a child
list, with explicit fuel bounding the number of iterations; each iteration
removes one element child, so `cs.length` fuel is always enough (proved in
`clearChildren_eq_filter` below). -/
def clearChildrenFuel : Nat → List Node → List Node
  | 0, cs => cs
  | fuel + 1, cs =>
      if cs.any Node.isElem then clearChildrenFuel fuel (removeFirstElemChild cs) else cs

/-- The `clear` loop run with adequate fuel. -/
def clearChildren (cs : List Node) : List Node :=
  clearChildrenFuel cs.length cs

/-- ParentWrapper.clear: repeatedly removes `children[0]` — the first *element*
child, since the `children` collection holds only element nodes — until the
`children` collection is empty; text-node children are untouched. -/
def ParentWrapper.clear : Node → Node
  | .elem t i cs ch => .elem t i cs (clearChildren ch)
  | .text s => .text s

/-- One heading argument to the TableMaker constructor: `{name, label}`. -/
structure HeadingInput : Type where
  mk ::
  name : String
  label : String
  deriving Repr, DecidableEq

/-- The heading descriptor `h` built by the TableMaker constructor loop:
`{name, pos: i, label: th_label, th}` where `th_label` is the TextNodeWrapper
of the label and `th` is the `th` ElementWrapper with the label appended. -/
structure Heading : Type where
  mk ::
  name : String
  pos : Nat
  label : Node
  th : Node
  deriving Repr

/-- Builds one heading descriptor for loop index `i`, as in the constructor
body: `th_label = new TextNodeWrapper(label)`, `th = new
ElementWrapper("th").append(th_label)` (appending a wrapper appends its owned
node). -/
def mkHeading (i : Nat) (inp : HeadingInput) : Heading :=
  let th_label := TextNodeWrapper.make (some inp.label)
  Heading.mk inp.name i th_label ((ElementWrapper.make "th").appendChild th_label)

/-- Assignment `m[k] = v` on a JavaScript object used as a map: an existing
key keeps its place and gets the new value; a fresh key is appended. -/
def jsObjInsert : List (String × Heading) → String → Heading → List (String × Heading)
  | [], k, v => [(k, v)]
  | (k', v') :: rest, k, v =>
      if k' = k then (k, v) :: rest else (k', v') :: jsObjInsert rest k v

/-- Appends a list of already-resolved wrapper nodes one by one, the way a
sequence of `append(wrapper)` calls does. -/
def appendWrappers (n : Node) (ns : List Node) : Node :=
  ns.foldl Node.appendChild n

/-- The constructor loop `for (i = 0; i < headings.length; i++)` producing the
ordered `this.headings` array, with `pos` recording the loop index. -/
def buildHeadings (i : Nat) : List HeadingInput → List Heading
  | [] => []
  | inp :: rest => mkHeading i inp :: buildHeadings (i + 1) rest

/-- The state a TableMaker holds after construction: the ordered heading
sequence, the by-name index `this.headings_by_name`, and the `thead` and
`tbody` subtrees.  The full `table` node is recovered by `TableMaker.node`. -/
structure TableMaker : Type where
  mk ::
  headings : List Heading
  headings_by_name : List (String × Heading)
  thead : Node
  tbody : Node
  deriving Repr

/-- TableMaker constructor: builds the heading descriptors and the header row
(one `th` per heading, in order), wraps the row in `thead`, and starts with an
empty `tbody`.  The by-name index is filled by `this.headings_by_name[name] =
h` for each heading in order. -/
def TableMaker.make (inputs : List HeadingInput) : TableMaker :=
  let hs := buildHeadings 0 inputs
  let headrow := appendWrappers (ElementWrapper.make "tr") (hs.map Heading.th)
  TableMaker.mk hs
    (hs.foldl (fun m h => jsObjInsert m h.name h) [])
    ((ElementWrapper.make "thead").appendChild headrow)
    (ElementWrapper.make "tbody")

/-- The `table` element: `table.append(this.thead, this.tbody)` makes the
header and body its children in that order. -/
def TableMaker.node (tm : TableMaker) : Node :=
  appendWrappers (ElementWrapper.make "table") [tm.thead, tm.tbody]

/-- A row record argument of `appendRows`: a JavaScript object mapping heading
names to cell values; `hasOwnProperty` and property access are association
list lookup (a JavaScript object never holds a key twice). -/
abbrev RowRecord : Type := List (String × JSVal)

/-- Property access `row[name]`, `none` when `!row.hasOwnProperty(name)`. -/
def RowRecord.lookup : RowRecord → String → Option JSVal
  | [], _ => none
  | (k, v) :: rest, name => if k = name then some v else RowRecord.lookup rest name

/-- Property access on the by-name heading index `this.headings_by_name`. -/
def lookupName : List (String × Heading) → String → Option Heading
  | [], _ => none
  | (k, v) :: rest, name => if k = name then some v else lookupName rest name

/-- The body of the inner `for (const col of this.headings)` loop of
`appendRows`, producing one `td` cell: if the row has the property, a
non-null, non-wrapper object value takes the decorated branch — truthy
`classes` are added to the cell, then `content` is appended — while any other
value is appended directly; a missing property appends `""`. -/
def renderCell (row : RowRecord) (col : Heading) : Option Node :=
  let cell := ElementWrapper.make "td"
  match row.lookup col.name with
  | some cellvalue =>
      match cellvalue with
      | .obj classes content =>
          let cell :=
            match classes with
            | some cs => DOMWrapper.addClasses cell cs
            | none => cell
          ParentWrapper.append cell [content]
      | _ => ParentWrapper.append cell [cellvalue]
  | none => ParentWrapper.append cell [JSVal.prim ""]

/-- One iteration of the outer loop of `appendRows`: a fresh `tr` receives one
rendered cell per heading, iterated in the fixed heading order. -/
def renderRow (hs : List Heading) (row : RowRecord) : Option Node :=
  hs.foldlM (fun tr col => (renderCell row col).map tr.appendChild) (ElementWrapper.make "tr")

/-- TableMaker.appendRows acting on the `tbody` node: each row record yields
one `tr` appended to the body, in argument order. -/
def TableMaker.appendRowsBody (tbody : Node) (hs : List Heading) (rows : List RowRecord) :
    Option Node :=
  rows.foldlM (fun tb row => (renderRow hs row).map tb.appendChild) tbody

/-- TableMaker.appendRows: mutates only `this.tbody`; returns `this`. -/
def TableMaker.appendRows (tm : TableMaker) (rows : List RowRecord) : Option TableMaker :=
  (TableMaker.appendRowsBody tm.tbody tm.headings rows).map
    (fun tb => TableMaker.mk tm.headings tm.headings_by_name tm.thead tb)

/-- CachedFile state: `_method`, `_uri`, `_cache_duration` from the
constructor, plus the mutable `_expiry` (milliseconds timestamp) and `_data`
slots.  The value type is abstract since the decoded JSON is opaque here. -/
structure CachedFile (V : Type) : Type where
  mk ::
  method : String
  uri : String
  cache_duration : Int
  expiry : Int
  data : Option V

/-- CachedFile constructor: stores method, uri and duration, and initialises
`_expiry = 0` and `_data = null`; the source default duration is 86400000. -/
def CachedFile.make (V : Type) (method uri : String) (cache_duration : Int) : CachedFile V :=
  CachedFile.mk method uri cache_duration 0 none

/-- CachedFile.get.  `now` is `Date.now()` read in the condition, `now2` the
one read after the awaited fetch; `fetch` is the outcome of
`requestJSON(this._method, this._uri)` at that moment.  Returns the state
after the call, whether a fetch was performed, and the outcome: a rejected
fetch propagates (`Except.error`) and skips both assignments, otherwise
`_data` and `_expiry` are updated and `_data` is returned. -/
def CachedFile.get {V E : Type} (c : CachedFile V) (force : Bool) (now now2 : Int)
    (fetch : Except E V) : CachedFile V × Bool × Except E (Option V) :=
  if force || decide (c.expiry < now) then
    match fetch with
    | .error e => (c, true, .error e)
    | .ok data =>
        (CachedFile.mk c.method c.uri c.cache_duration (now2 + c.cache_duration) (some data),
          true, .ok (some data))
  else
    (c, false, .ok c.data)

/-- Total form of the child-resolution rule on the values it accepts. -/
def resolveChildT (v : JSVal) : Node :=
  (resolveChild v).getD (Node.text "")

/-- A cell value the source can render without a platform error: a decorated
record must carry resolvable content (the content of a decorated record is
`null`, a primitive or a wrapper — never another plain object). -/
def cellWf : JSVal → Bool
  | .obj _ content => (resolveChild content).isSome
  | _ => true

/-- All cell values of a row record are renderable. -/
def rowWf (row : RowRecord) : Bool :=
  row.all (fun kv => cellWf kv.2)

/-- Total form of the cell-rendering step, defined on renderable values. -/
def renderCellT (row : RowRecord) (col : Heading) : Node :=
  let cell := ElementWrapper.make "td"
  match row.lookup col.name with
  | some (.obj classes content) =>
      (match classes with
        | some cs => DOMWrapper.addClasses cell cs
        | none => cell).appendChild (resolveChildT content)
  | some v => cell.appendChild (resolveChildT v)
  | none => cell.appendChild (Node.text "")

/-- The rendered row: a fresh `tr` holding one rendered cell per heading, in
heading order. -/
def renderRowT (hs : List Heading) (row : RowRecord) : Node :=
  Node.elem "tr" "" [] (hs.map (renderCellT row))

/-- The class list produced by `addClasses` on a node whose class list is
`cs0`, as a plain list operation. -/
def addClassesList (cs0 : List String) (newcs : List String) : List String :=
  newcs.foldl (fun cs cls => if cls = "" then cs else classListAdd cs cls) cs0

/-- Repeated `appendRows` calls on a body node, one batch after another. -/
def applyBatches (hs : List Heading) (tbody : Node) (bs : List (List RowRecord)) :
    Option Node :=
  bs.foldlM (fun tb b => TableMaker.appendRowsBody tb hs b) tbody

/-- Concrete heading inputs shared by witness instantiations. -/
def witnessInputs : List HeadingInput :=
  [HeadingInput.mk "t" "Time", HeadingInput.mk "v" "Value"]

/-- The heading descriptors built from `witnessInputs`. -/
def witnessHeadings : List Heading :=
  buildHeadings 0 witnessInputs

/-- The row batch of the spec scenario: a row missing `v`, a row missing `t`,
and a row with a decorated `v` cell. -/
def witnessRows : List RowRecord :=
  [[("t", JSVal.prim "09:00")],
    [("v", JSVal.prim "42")],
    [("t", JSVal.prim "10:00"), ("v", JSVal.obj (some ["hot"]) (JSVal.prim "99"))]]

/-! Supporting lemmas about `append` and the shared child-resolution rule. -/

theorem ParentWrapper.append_nil (p : Node) : ParentWrapper.append p [] = some p := rfl

theorem ParentWrapper.append_cons (p : Node) (v : JSVal) (vs : List JSVal) :
    ParentWrapper.append p (v :: vs) =
      (resolveChild v).bind (fun n => ParentWrapper.append (p.appendChild n) vs) := by
  cases h : resolveChild v <;> simp [ParentWrapper.append, List.foldlM, h]

theorem ParentWrapper.append_one (p : Node) (v : JSVal) (n : Node)
    (h : resolveChild v = some n) :
    ParentWrapper.append p [v] = some (p.appendChild n) := by
  rw [ParentWrapper.append_cons, h]
  rfl

theorem resolveChild_eq_of_isSome {v : JSVal} (h : (resolveChild v).isSome = true) :
    resolveChild v = some (resolveChildT v) := by
  cases hv : resolveChild v with
  | none => rw [hv] at h; cases h
  | some n => simp [resolveChildT, hv]

theorem rowWf_lookup {row : RowRecord} {name : String} {v : JSVal}
    (hwf : rowWf row = true) (h : row.lookup name = some v) : cellWf v = true := by
  induction row with
  | nil => cases h
  | cons kv rest ih =>
    obtain ⟨k, w⟩ := kv
    unfold rowWf at hwf
    rw [List.all_cons, Bool.and_eq_true] at hwf
    simp only [RowRecord.lookup] at h
    by_cases hk : k = name
    · rw [if_pos hk] at h
      cases h
      exact hwf.1
    · rw [if_neg hk] at h
      exact ih hwf.2 h

theorem renderCell_eq {row : RowRecord} (col : Heading)
    (h : ∀ v, row.lookup col.name = some v → cellWf v = true) :
    renderCell row col = some (renderCellT row col) := by
  unfold renderCell renderCellT
  cases hl : row.lookup col.name with
  | none => rfl
  | some v =>
    cases v with
    | jsNull => rfl
    | prim s => rfl
    | wrap n => rfl
    | obj classes content =>
      have hwf : cellWf (JSVal.obj classes content) = true := h _ hl
      unfold cellWf at hwf
      have hres := resolveChild_eq_of_isSome hwf
      cases classes <;>
        simp only [ParentWrapper.append_one _ _ _ hres]

theorem appendWrappers_elem (t i : String) (cs : List String) (ch ns : List Node) :
    appendWrappers (Node.elem t i cs ch) ns = Node.elem t i cs (ch ++ ns) := by
  induction ns generalizing ch with
  | nil => simp [appendWrappers]
  | cons n ns ih =>
    show appendWrappers (Node.appendChild (Node.elem t i cs ch) n) ns = _
    rw [Node.appendChild, ih, List.append_assoc]
    rfl

theorem renderRow_eq (hs : List Heading) {row : RowRecord} (hwf : rowWf row = true) :
    renderRow hs row = some (renderRowT hs row) := by
  suffices h : ∀ (tr : Node),
      hs.foldlM (fun tr col => (renderCell row col).map tr.appendChild) tr =
        some (appendWrappers tr (hs.map (renderCellT row))) by
    rw [renderRow, h (ElementWrapper.make "tr"), renderRowT, ElementWrapper.make,
      appendWrappers_elem, List.nil_append]
  induction hs with
  | nil => intro tr; rfl
  | cons c cs ih =>
    intro tr
    have hc : renderCell row c = some (renderCellT row c) :=
      renderCell_eq c (fun v hv => rowWf_lookup hwf hv)
    show ((renderCell row c).map tr.appendChild).bind _ = _
    rw [hc]
    exact ih (tr.appendChild (renderCellT row c))

theorem appendRowsBody_eq (hs : List Heading) (tbody : Node) {rows : List RowRecord}
    (h : ∀ r ∈ rows, rowWf r = true) :
    TableMaker.appendRowsBody tbody hs rows =
      some (appendWrappers tbody (rows.map (renderRowT hs))) := by
  induction rows generalizing tbody with
  | nil => rfl
  | cons r rest ih =>
    have hr : rowWf r = true := h r (List.mem_cons_self r rest)
    show ((renderRow hs r).map tbody.appendChild).bind _ = _
    rw [renderRow_eq hs hr]
    show TableMaker.appendRowsBody (tbody.appendChild (renderRowT hs r)) hs rest = _
    rw [ih (tbody.appendChild (renderRowT hs r)) (fun r hr => h r (List.mem_cons_of_mem _ hr))]
    rfl

/-! Lemmas about the clear loop. -/

theorem removeFirstElemChild_length {cs : List Node} (h : cs.any Node.isElem = true) :
    (removeFirstElemChild cs).length < cs.length := by
  induction cs with
  | nil => cases h
  | cons c rest ih =>
    rw [List.any_cons, Bool.or_eq_true] at h
    cases hc : c.isElem with
    | true =>
      simp [removeFirstElemChild, hc]
    | false =>
      have hrest : rest.any Node.isElem = true := by
        cases h with
        | inl h1 => rw [hc] at h1; cases h1
        | inr h2 => exact h2
      simp only [removeFirstElemChild, hc, Bool.false_eq_true, if_false, List.length_cons]
      exact Nat.succ_lt_succ (ih hrest)

theorem removeFirstElemChild_filter (cs : List Node) :
    (removeFirstElemChild cs).filter (fun c => !c.isElem) =
      cs.filter (fun c => !c.isElem) := by
  induction cs with
  | nil => rfl
  | cons c rest ih =>
    cases hc : c.isElem with
    | true => simp [removeFirstElemChild, hc, List.filter_cons]
    | false => simp [removeFirstElemChild, hc, List.filter_cons, ih]

theorem filter_of_any_eq_false {cs : List Node} (h : cs.any Node.isElem = false) :
    cs.filter (fun c => !c.isElem) = cs := by
  induction cs with
  | nil => rfl
  | cons c rest ih =>
    rw [List.any_cons] at h
    have hc : c.isElem = false := by
      cases hcc : c.isElem with
      | true => rw [hcc] at h; cases h
      | false => rfl
    have hrest : rest.any Node.isElem = false := by
      rw [hc] at h; simpa using h
    simp [List.filter_cons, hc, ih hrest]

theorem clearChildrenFuel_eq {fuel : Nat} {cs : List Node} (h : cs.length ≤ fuel) :
    clearChildrenFuel fuel cs = cs.filter (fun c => !c.isElem) := by
  induction fuel generalizing cs with
  | zero =>
    have hnil : cs = [] := List.eq_nil_of_length_eq_zero (Nat.le_zero.mp h)
    subst hnil
    rfl
  | succ fuel ih =>
    cases hany : cs.any Node.isElem with
    | true =>
      have hlt := removeFirstElemChild_length hany
      have hle : (removeFirstElemChild cs).length ≤ fuel := by omega
      simp only [clearChildrenFuel, hany, if_true]
      rw [ih hle, removeFirstElemChild_filter]
    | false =>
      simp only [clearChildrenFuel, hany, Bool.false_eq_true, if_false]
      exact (filter_of_any_eq_false hany).symm

theorem clearChildren_eq_filter (cs : List Node) :
    clearChildren cs = cs.filter (fun c => !c.isElem) :=
  clearChildrenFuel_eq (Nat.le_refl _)

theorem ParentWrapper.clear_elem (t i : String) (cls : List String) (ch : List Node) :
    ParentWrapper.clear (Node.elem t i cls ch) =
      Node.elem t i cls (ch.filter (fun c => !c.isElem)) := by
  show Node.elem t i cls (clearChildren ch) = _
  rw [clearChildren_eq_filter]

/-! Lemmas about class-token sets. -/

theorem mem_classListAdd (cs : List String) (cls x : String) :
    x ∈ classListAdd cs cls ↔ x ∈ cs ∨ x = cls := by
  unfold classListAdd
  by_cases h : cls ∈ cs
  · rw [if_pos h]
    constructor
    · exact Or.inl
    · intro hx
      cases hx with
      | inl h1 => exact h1
      | inr h2 => rw [h2]; exact h
  · rw [if_neg h]
    simp [List.mem_append]

theorem addClasses_elem (t i : String) (cs0 : List String) (ch : List Node)
    (newcs : List String) :
    DOMWrapper.addClasses (Node.elem t i cs0 ch) newcs =
      Node.elem t i (addClassesList cs0 newcs) ch := by
  induction newcs generalizing cs0 with
  | nil => rfl
  | cons c rest ih =>
    unfold DOMWrapper.addClasses addClassesList
    rw [List.foldl_cons, List.foldl_cons]
    by_cases hc : c = ""
    · rw [if_pos hc, if_pos hc]
      exact ih cs0
    · rw [if_neg hc, if_neg hc, Node.addClass]
      exact ih (classListAdd cs0 c)

theorem mem_addClassesList (cs0 newcs : List String) (x : String) :
    x ∈ addClassesList cs0 newcs ↔ x ∈ cs0 ∨ (x ∈ newcs ∧ x ≠ "") := by
  induction newcs generalizing cs0 with
  | nil => simp [addClassesList]
  | cons c rest ih =>
    unfold addClassesList
    rw [List.foldl_cons]
    by_cases hc : c = ""
    · rw [if_pos hc]
      have := ih cs0
      unfold addClassesList at this
      rw [this]
      subst hc
      constructor
      · intro hx
        cases hx with
        | inl h1 => exact Or.inl h1
        | inr h2 => exact Or.inr ⟨List.mem_cons_of_mem _ h2.1, h2.2⟩
      · intro hx
        cases hx with
        | inl h1 => exact Or.inl h1
        | inr h2 =>
          cases List.mem_cons.mp h2.1 with
          | inl hxc => exact absurd hxc h2.2
          | inr hxr => exact Or.inr ⟨hxr, h2.2⟩
    · rw [if_neg hc]
      have := ih (classListAdd cs0 c)
      unfold addClassesList at this
      rw [this, mem_classListAdd]
      constructor
      · intro hx
        rcases hx with (h1 | h1) | h1
        · exact Or.inl h1
        · subst h1; exact Or.inr ⟨List.mem_cons_self _ _, hc⟩
        · exact Or.inr ⟨List.mem_cons_of_mem _ h1.1, h1.2⟩
      · intro hx
        rcases hx with h1 | ⟨h1, h2⟩
        · exact Or.inl (Or.inl h1)
        · cases List.mem_cons.mp h1 with
          | inl hxc => exact Or.inl (Or.inr hxc)
          | inr hxr => exact Or.inr ⟨hxr, h2⟩

/-! Lemmas about the TableMaker constructor loop and the by-name index. -/

theorem buildHeadings_length (i : Nat) (inputs : List HeadingInput) :
    (buildHeadings i inputs).length = inputs.length := by
  induction inputs generalizing i with
  | nil => rfl
  | cons inp rest ih => simp [buildHeadings, ih]

theorem buildHeadings_names (i : Nat) (inputs : List HeadingInput) :
    (buildHeadings i inputs).map Heading.name = inputs.map HeadingInput.name := by
  induction inputs generalizing i with
  | nil => rfl
  | cons inp rest ih => simp [buildHeadings, mkHeading, ih]

theorem buildHeadings_get (inputs : List HeadingInput) (i j : Nat)
    (hj : j < (buildHeadings i inputs).length) (hj2 : j < inputs.length) :
    (buildHeadings i inputs).get ⟨j, hj⟩ = mkHeading (i + j) (inputs.get ⟨j, hj2⟩) := by
  induction inputs generalizing i j with
  | nil => cases hj2
  | cons inp rest ih =>
    cases j with
    | zero => rfl
    | succ j =>
      have hj' : j < (buildHeadings (i + 1) rest).length := by
        rw [buildHeadings_length]
        exact Nat.lt_of_succ_lt_succ hj2
      have hj2' : j < rest.length := Nat.lt_of_succ_lt_succ hj2
      show (buildHeadings (i + 1) rest).get ⟨j, hj'⟩ = _
      rw [ih (i + 1) j hj' hj2']
      congr 1
      omega

theorem jsObjInsert_fresh {m : List (String × Heading)} {k : String} (v : Heading)
    (h : k ∉ m.map Prod.fst) : jsObjInsert m k v = m ++ [(k, v)] := by
  induction m with
  | nil => rfl
  | cons kv rest ih =>
    obtain ⟨k', v'⟩ := kv
    rw [List.map_cons, List.mem_cons] at h
    push_neg at h
    rw [jsObjInsert, if_neg (fun hh => h.1 hh.symm), ih h.2]
    rfl

theorem foldl_jsObjInsert (hs : List Heading) (m : List (String × Heading))
    (hdisj : ∀ h ∈ hs, h.name ∉ m.map Prod.fst)
    (hnd : (hs.map Heading.name).Nodup) :
    hs.foldl (fun m h => jsObjInsert m h.name h) m = m ++ hs.map (fun h => (h.name, h)) := by
  induction hs generalizing m with
  | nil => simp
  | cons h0 rest ih =>
    rw [List.map_cons, List.nodup_cons] at hnd
    rw [List.foldl_cons, jsObjInsert_fresh h0 (hdisj h0 (List.mem_cons_self h0 rest))]
    have hdisj' : ∀ h ∈ rest, h.name ∉ (m ++ [(h0.name, h0)]).map Prod.fst := by
      intro h hmem
      rw [List.map_append, List.mem_append]
      intro hcontra
      cases hcontra with
      | inl h1 => exact hdisj h (List.mem_cons_of_mem h0 hmem) h1
      | inr h2 =>
        rw [List.map_singleton, List.mem_singleton] at h2
        have h2' : h.name = h0.name := h2
        exact hnd.1 (h2' ▸ List.mem_map_of_mem Heading.name hmem)
    rw [ih (m ++ [(h0.name, h0)]) hdisj' hnd.2, List.map_cons, List.append_assoc]
    rfl

theorem lookupName_map_pair {hs : List Heading} (hnd : (hs.map Heading.name).Nodup)
    {h : Heading} (hmem : h ∈ hs) :
    lookupName (hs.map (fun h => (h.name, h))) h.name = some h := by
  induction hs with
  | nil => cases hmem
  | cons h0 rest ih =>
    rw [List.map_cons, List.nodup_cons] at hnd
    cases List.mem_cons.mp hmem with
    | inl heq =>
      subst heq
      simp [lookupName]
    | inr hrest =>
      have hne : h0.name ≠ h.name := by
        intro hcontra
        exact hnd.1 (hcontra ▸ List.mem_map_of_mem Heading.name hrest)
      rw [List.map_cons, lookupName, if_neg hne]
      exact ih hnd.2 hrest

/-! Claim theorems. -/

theorem append_eq_appendWrappers (p : Node) (vs : List JSVal)
    (hres : ∀ v ∈ vs, (resolveChild v).isSome = true) :
    ParentWrapper.append p vs = some (appendWrappers p (vs.map resolveChildT)) := by
  induction vs generalizing p with
  | nil => rfl
  | cons v rest ih =>
    have hv := resolveChild_eq_of_isSome (hres v (List.mem_cons_self v rest))
    rw [ParentWrapper.append_cons, hv]
    show ParentWrapper.append (p.appendChild (resolveChildT v)) rest = _
    rw [ih _ (fun v hv2 => hres v (List.mem_cons_of_mem _ hv2))]
    rfl

/-- C2 counterexample: the claim says a non-wrapper, non-null argument becomes
a text wrapper holding its string conversion and is appended, with the
container returned.  A plain object (for instance `{}` — here an `obj` value)
is non-wrapper and non-null, yet `append` does not stringify it: since
`typeof` is `"object"` the code reads its absent `element` property and
`appendChild(undefined)` throws, so the call yields no container at all. -/
theorem append_plain_object_counterexample :
    ParentWrapper.append (ElementWrapper.make "div") [JSVal.obj none JSVal.jsNull] = none :=
  rfl

/-- C2 (amended): each argument is resolved in order — `null`/`undefined` to
an empty text wrapper, a non-null *non-object* value to a text wrapper of its
string conversion, and any object via its `element` property (so a wrapper is
used as-is, while a plain non-wrapper object makes the call fail with a
platform `TypeError` instead of being stringified); when every argument
resolves, each resolved node is appended as the last child in argument order
and the container is returned for chaining. -/
theorem append_child_resolution (p : Node) (vs : List JSVal)
    (hp : p.isElem = true)
    (hres : ∀ v ∈ vs, (resolveChild v).isSome = true) :
    ParentWrapper.append p vs = some (appendWrappers p (vs.map resolveChildT)) ∧
    (appendWrappers p (vs.map resolveChildT)).childNodes =
      p.childNodes ++ vs.map resolveChildT ∧
    resolveChildT JSVal.jsNull = Node.text "" ∧
    (∀ s, resolveChildT (JSVal.prim s) = Node.text s) ∧
    (∀ n, resolveChildT (JSVal.wrap n) = n) := by
  refine ⟨append_eq_appendWrappers p vs hres, ?_, rfl, fun s => rfl, fun n => rfl⟩
  cases p with
  | text s => cases hp
  | elem t i cls ch => rw [appendWrappers_elem]; rfl

/-- C2 witness: the amended theorem applied at a concrete container and
argument list. -/
theorem append_child_resolution_witness :
    ((ElementWrapper.make "p").isElem = true ∧
      ∀ v ∈ [JSVal.prim "42", JSVal.jsNull, JSVal.wrap (ElementWrapper.make "b")],
        (resolveChild v).isSome = true) ∧
    (ParentWrapper.append (ElementWrapper.make "p")
        [JSVal.prim "42", JSVal.jsNull, JSVal.wrap (ElementWrapper.make "b")] =
      some (appendWrappers (ElementWrapper.make "p")
        ([JSVal.prim "42", JSVal.jsNull,
          JSVal.wrap (ElementWrapper.make "b")].map resolveChildT)) ∧
    (appendWrappers (ElementWrapper.make "p")
        ([JSVal.prim "42", JSVal.jsNull,
          JSVal.wrap (ElementWrapper.make "b")].map resolveChildT)).childNodes =
      (ElementWrapper.make "p").childNodes ++
        [JSVal.prim "42", JSVal.jsNull,
          JSVal.wrap (ElementWrapper.make "b")].map resolveChildT ∧
    resolveChildT JSVal.jsNull = Node.text "" ∧
    (∀ s, resolveChildT (JSVal.prim s) = Node.text s) ∧
    (∀ n, resolveChildT (JSVal.wrap n) = n)) :=
  ⟨⟨rfl, by decide⟩,
    append_child_resolution (ElementWrapper.make "p")
      [JSVal.prim "42", JSVal.jsNull, JSVal.wrap (ElementWrapper.make "b")] rfl (by decide)⟩

/-- C4 counterexample: the claim says `clear()` leaves the container with
zero children.  The loop runs over `element.children`, which holds only
*element* children, so a text-node child survives: on a `div` whose only
child is the text node `"hi"`, `clear()` is the identity and one child
remains. -/
theorem clear_text_child_counterexample :
    ParentWrapper.clear (Node.elem "div" "" [] [Node.text "hi"]) =
      Node.elem "div" "" [] [Node.text "hi"] ∧
    (ParentWrapper.clear (Node.elem "div" "" [] [Node.text "hi"])).childNodes.length = 1 :=
  ⟨rfl, rfl⟩

/-- C4 (amended): `clear()` repeatedly removes the first *element* child until
no element children remain; on return the container has zero element children
(its child list is the original one with every element child removed, so
text-node children survive in order), and if every child was an element — in
particular if the container was already empty — the child list is empty;
calling it on an already-empty container is a no-op and does not fail. -/
theorem clear_element_children (t i : String) (cls : List String) (ch : List Node) :
    (ParentWrapper.clear (Node.elem t i cls ch)).childNodes =
      ch.filter (fun c => !c.isElem) ∧
    (∀ c ∈ (ParentWrapper.clear (Node.elem t i cls ch)).childNodes, c.isElem = false) ∧
    ((∀ c ∈ ch, c.isElem = true) →
      ParentWrapper.clear (Node.elem t i cls ch) = Node.elem t i cls []) ∧
    (ch = [] → ParentWrapper.clear (Node.elem t i cls ch) = Node.elem t i cls ch) := by
  rw [ParentWrapper.clear_elem]
  refine ⟨rfl, ?_, ?_, ?_⟩
  · intro c hc
    rw [Node.childNodes, List.mem_filter] at hc
    cases hcc : c.isElem with
    | true => rw [hcc] at hc; cases hc.2
    | false => rfl
  · intro hall
    have : ch.filter (fun c => !c.isElem) = [] := by
      induction ch with
      | nil => rfl
      | cons c rest ih =>
        have hc := hall c (List.mem_cons_self c rest)
        rw [List.filter_cons, hc]
        exact ih (fun c hcr => hall c (List.mem_cons_of_mem _ hcr))
    rw [this]
  · intro hch
    subst hch
    rfl

/-- C4 witness: the amended theorem applied to a `ul` with one `li` element
child and one text child. -/
theorem clear_element_children_witness :
    (ParentWrapper.clear
        (Node.elem "ul" "" [] [ElementWrapper.make "li", Node.text "x"])).childNodes =
      [ElementWrapper.make "li", Node.text "x"].filter (fun c => !c.isElem) ∧
    (∀ c ∈ (ParentWrapper.clear
        (Node.elem "ul" "" [] [ElementWrapper.make "li", Node.text "x"])).childNodes,
      c.isElem = false) ∧
    ((∀ c ∈ [ElementWrapper.make "li", Node.text "x"], c.isElem = true) →
      ParentWrapper.clear (Node.elem "ul" "" [] [ElementWrapper.make "li", Node.text "x"]) =
        Node.elem "ul" "" [] []) ∧
    ([ElementWrapper.make "li", Node.text "x"] = ([] : List Node) →
      ParentWrapper.clear (Node.elem "ul" "" [] [ElementWrapper.make "li", Node.text "x"]) =
        Node.elem "ul" "" [] [ElementWrapper.make "li", Node.text "x"]) :=
  clear_element_children "ul" "" [] [ElementWrapper.make "li", Node.text "x"]

/-- C5: a row record with no own property for the heading at position `j`
renders the cell at that position as an empty leaf — the very node the
empty-string leaf rule of `append` produces. -/
theorem missing_heading_empty_cell (hs : List Heading) (row : RowRecord) (j : Nat)
    (hj : j < hs.length) (hwf : rowWf row = true)
    (hmiss : row.lookup (hs.get ⟨j, hj⟩).name = none) :
    ∃ cells : List Node,
      renderRow hs row = some (Node.elem "tr" "" [] cells) ∧
      cells.get? j = some (Node.elem "td" "" [] [Node.text ""]) ∧
      ParentWrapper.append (ElementWrapper.make "td") [JSVal.prim ""] =
        some (Node.elem "td" "" [] [Node.text ""]) := by
  refine ⟨hs.map (renderCellT row), ?_, ?_, rfl⟩
  · rw [renderRow_eq hs hwf]
    rfl
  · rw [List.get?_map, List.get?_eq_get hj]
    show some (renderCellT row (hs.get ⟨j, hj⟩)) = _
    unfold renderCellT
    rw [hmiss]
    rfl

/-- C5 witness: a two-heading table and a record supplying only the second
heading; the first cell is the empty leaf. -/
theorem missing_heading_empty_cell_witness :
    (0 < (buildHeadings 0 [HeadingInput.mk "t" "Time", HeadingInput.mk "v" "Value"]).length ∧
      rowWf [("v", JSVal.prim "42")] = true) ∧
    ∃ cells : List Node,
      renderRow (buildHeadings 0 [HeadingInput.mk "t" "Time", HeadingInput.mk "v" "Value"])
          [("v", JSVal.prim "42")] =
        some (Node.elem "tr" "" [] cells) ∧
      cells.get? 0 = some (Node.elem "td" "" [] [Node.text ""]) ∧
      ParentWrapper.append (ElementWrapper.make "td") [JSVal.prim ""] =
        some (Node.elem "td" "" [] [Node.text ""]) :=
  ⟨⟨by decide, rfl⟩,
    missing_heading_empty_cell
      (buildHeadings 0 [HeadingInput.mk "t" "Time", HeadingInput.mk "v" "Value"])
      [("v", JSVal.prim "42")] 0 (by decide) rfl rfl⟩

/-- C9: when the underlying fetch rejects, `get` leaves the cache state — the
cached value and the stored expiry — unmodified, and if the fetch was
attempted at all (forced or expired) the rejection propagates unchanged to
the caller. -/
theorem cachedFile_get_error {V E : Type} (c : CachedFile V) (force : Bool)
    (now now2 : Int) (e : E) :
    (CachedFile.get c force now now2 (Except.error e)).1 = c ∧
    ((force = true ∨ c.expiry < now) →
      CachedFile.get c force now now2 (Except.error e) = (c, true, Except.error e)) := by
  unfold CachedFile.get
  by_cases hcond : (force || decide (c.expiry < now)) = true
  · rw [if_pos hcond]
    exact ⟨rfl, fun _ => rfl⟩
  · rw [if_neg hcond]
    refine ⟨rfl, fun h => absurd ?_ hcond⟩
    rw [Bool.or_eq_true, decide_eq_true_eq]
    exact h

/-- C9 witness: a fresh cache with positive current time; the forced-or-expired
condition holds and the error comes back with the state intact. -/
theorem cachedFile_get_error_witness :
    ((CachedFile.get (CachedFile.make Nat "GET" "data.json" 1000) false 5 5
        (Except.error "boom")).1 = CachedFile.make Nat "GET" "data.json" 1000 ∧
      ((false = true ∨ (CachedFile.make Nat "GET" "data.json" 1000).expiry < 5) →
        CachedFile.get (CachedFile.make Nat "GET" "data.json" 1000) false 5 5
            (Except.error "boom") =
          (CachedFile.make Nat "GET" "data.json" 1000, true, Except.error "boom"))) :=
  cachedFile_get_error (CachedFile.make Nat "GET" "data.json" 1000) false 5 5 "boom"

/-- C10: a non-null, non-wrapper object cell value — an array or a record
with no `content` field included — takes the decorated branch: with absent or
falsy `classes` no class tokens are added, and with absent `content`
(`undefined`, our `jsNull`) the cell renders as an empty leaf. -/
theorem object_cell_decorated_branch (row : RowRecord) (col : Heading)
    (ocls : Option (List String)) (content : JSVal)
    (hlook : row.lookup col.name = some (JSVal.obj ocls content)) :
    (∀ cs, ocls = some cs →
      renderCell row col =
        ParentWrapper.append (DOMWrapper.addClasses (ElementWrapper.make "td") cs) [content]) ∧
    (ocls = none →
      renderCell row col = ParentWrapper.append (ElementWrapper.make "td") [content]) ∧
    (ocls = none → content = JSVal.jsNull →
      renderCell row col = some (Node.elem "td" "" [] [Node.text ""])) := by
  unfold renderCell
  rw [hlook]
  refine ⟨?_, ?_, ?_⟩
  · intro cs h1
    subst h1
    rfl
  · intro h1
    subst h1
    rfl
  · intro h1 h2
    subst h1
    subst h2
    rfl

/-- C10 witness: a record whose cell value is a field-less object (such as an
empty array): no classes are added and the cell is an empty leaf. -/
theorem object_cell_decorated_branch_witness :
    ([("a", JSVal.obj none JSVal.jsNull)] : RowRecord).lookup
        (Heading.mk "a" 0 (Node.text "A") (ElementWrapper.make "th")).name =
      some (JSVal.obj none JSVal.jsNull) ∧
    ((∀ cs, (none : Option (List String)) = some cs →
      renderCell [("a", JSVal.obj none JSVal.jsNull)]
          (Heading.mk "a" 0 (Node.text "A") (ElementWrapper.make "th")) =
        ParentWrapper.append (DOMWrapper.addClasses (ElementWrapper.make "td") cs)
          [JSVal.jsNull]) ∧
    ((none : Option (List String)) = none →
      renderCell [("a", JSVal.obj none JSVal.jsNull)]
          (Heading.mk "a" 0 (Node.text "A") (ElementWrapper.make "th")) =
        ParentWrapper.append (ElementWrapper.make "td") [JSVal.jsNull]) ∧
    ((none : Option (List String)) = none → JSVal.jsNull = JSVal.jsNull →
      renderCell [("a", JSVal.obj none JSVal.jsNull)]
          (Heading.mk "a" 0 (Node.text "A") (ElementWrapper.make "th")) =
        some (Node.elem "td" "" [] [Node.text ""]))) :=
  ⟨rfl,
    object_cell_decorated_branch [("a", JSVal.obj none JSVal.jsNull)]
      (Heading.mk "a" 0 (Node.text "A") (ElementWrapper.make "th")) none JSVal.jsNull rfl⟩

/-- C3: a decorated cell `{classes: C, content: X}` for a present heading
renders (on the decorated branch, before any leaf/wrapper fallback) a cell
whose class list holds exactly the tokens of `C` as an order-insensitive set
and whose single child is the resolution of `X` under the shared
child-resolution rule of `append`. -/
theorem decorated_cell_render (row : RowRecord) (col : Heading) (C : List String)
    (X : JSVal) (n : Node)
    (hlook : row.lookup col.name = some (JSVal.obj (some C) X))
    (hres : resolveChild X = some n)
    (htok : ∀ c ∈ C, c ≠ "") :
    renderCell row col = some (Node.elem "td" "" (addClassesList [] C) [n]) ∧
    (∀ x, x ∈ addClassesList [] C ↔ x ∈ C) := by
  constructor
  · unfold renderCell
    rw [hlook]
    show ParentWrapper.append (DOMWrapper.addClasses (ElementWrapper.make "td") C) [X] = _
    rw [show DOMWrapper.addClasses (ElementWrapper.make "td") C =
        Node.elem "td" "" (addClassesList [] C) [] from addClasses_elem "td" "" [] [] C]
    rw [ParentWrapper.append_one _ _ _ hres]
    rfl
  · intro x
    rw [mem_addClassesList]
    constructor
    · intro hx
      rcases hx with h1 | ⟨h2, _⟩
      · cases h1
      · exact h2
    · intro hx
      exact Or.inr ⟨hx, htok x hx⟩

/-- C3 witness: the decorated cell of the spec scenario, with classes
`["hot"]` and content `"99"`. -/
theorem decorated_cell_render_witness :
    (([("v", JSVal.obj (some ["hot"]) (JSVal.prim "99"))] : RowRecord).lookup
        (Heading.mk "v" 1 (Node.text "Value") (ElementWrapper.make "th")).name =
      some (JSVal.obj (some ["hot"]) (JSVal.prim "99")) ∧
      resolveChild (JSVal.prim "99") = some (Node.text "99") ∧
      ∀ c ∈ ["hot"], c ≠ "") ∧
    (renderCell [("v", JSVal.obj (some ["hot"]) (JSVal.prim "99"))]
        (Heading.mk "v" 1 (Node.text "Value") (ElementWrapper.make "th")) =
      some (Node.elem "td" "" (addClassesList [] ["hot"]) [Node.text "99"]) ∧
    (∀ x, x ∈ addClassesList [] ["hot"] ↔ x ∈ ["hot"])) :=
  ⟨⟨rfl, rfl, by decide⟩,
    decorated_cell_render [("v", JSVal.obj (some ["hot"]) (JSVal.prim "99"))]
      (Heading.mk "v" 1 (Node.text "Value") (ElementWrapper.make "th"))
      ["hot"] (JSVal.prim "99") (Node.text "99") rfl rfl (by decide)⟩

theorem CachedFile.get_fetches {V E : Type} (c : CachedFile V) (force : Bool)
    (now now2 : Int) (v : V) (h : force = true ∨ c.expiry < now) :
    CachedFile.get c force now now2 (Except.ok v : Except E V) =
      (CachedFile.mk c.method c.uri c.cache_duration (now2 + c.cache_duration) (some v),
        true, Except.ok (some v)) := by
  unfold CachedFile.get
  rw [if_pos (by rw [Bool.or_eq_true, decide_eq_true_eq]; exact h)]

theorem CachedFile.get_cached {V E : Type} (c : CachedFile V) (now now2 : Int)
    (fetch : Except E V) (h : ¬ c.expiry < now) :
    CachedFile.get c false now now2 fetch = (c, false, Except.ok c.data) := by
  unfold CachedFile.get
  rw [if_neg (by rw [Bool.false_or, decide_eq_true_eq]; exact h)]

/-- C8: `get(force)` fetches exactly when `force` is true or the cached value
has outlived `ttl_ms` (the stored expiry, last fetch time plus ttl, is in the
past) and otherwise returns the last fetched value without fetching; with
`ttl_ms = 1000` and a scenario starting at (positive, real-clock) time `t0`,
`get()` at `t0` fetches, `get()` at `t0 + 500` does not and returns the first
value, and `get()` at `t0 + 1500` fetches again. -/
theorem cachedFile_get_fetch_policy {V E : Type} (c : CachedFile V) (force : Bool)
    (now now2 : Int) (fetch : Except E V) (uri : String) (v1 v2 v3 : V) (t0 : Int)
    (ht : 0 < t0) :
    ((CachedFile.get c force now now2 fetch).2.1 = true ↔
      (force = true ∨ c.expiry < now)) ∧
    (¬(force = true ∨ c.expiry < now) →
      CachedFile.get c force now now2 fetch = (c, false, Except.ok c.data)) ∧
    CachedFile.get (CachedFile.make V "GET" uri 1000) false t0 t0
        (Except.ok v1 : Except E V) =
      (CachedFile.mk "GET" uri 1000 (t0 + 1000) (some v1), true, Except.ok (some v1)) ∧
    CachedFile.get (CachedFile.mk "GET" uri 1000 (t0 + 1000) (some v1)) false (t0 + 500)
        (t0 + 500) (Except.ok v2 : Except E V) =
      (CachedFile.mk "GET" uri 1000 (t0 + 1000) (some v1), false, Except.ok (some v1)) ∧
    (CachedFile.get (CachedFile.mk "GET" uri 1000 (t0 + 1000) (some v1)) false (t0 + 1500)
        (t0 + 1500) (Except.ok v3 : Except E V)).2.1 = true := by
  have hbool : ((force || decide (c.expiry < now)) = true) ↔
      (force = true ∨ c.expiry < now) := by
    rw [Bool.or_eq_true, decide_eq_true_eq]
  refine ⟨?_, ?_, ?_, ?_, ?_⟩
  · unfold CachedFile.get
    by_cases hcond : (force || decide (c.expiry < now)) = true
    · rw [if_pos hcond]
      cases fetch with
      | error e => exact ⟨fun _ => hbool.mp hcond, fun _ => rfl⟩
      | ok v => exact ⟨fun _ => hbool.mp hcond, fun _ => rfl⟩
    · rw [if_neg hcond]
      exact ⟨fun hh => absurd hh Bool.false_ne_true, fun hc => absurd (hbool.mpr hc) hcond⟩
  · intro hnot
    unfold CachedFile.get
    rw [if_neg (fun hcond => hnot (hbool.mp hcond))]
  · exact CachedFile.get_fetches _ false t0 t0 v1 (Or.inr ht)
  · exact CachedFile.get_cached _ (t0 + 500) (t0 + 500) _
      (show ¬ (t0 + 1000 : Int) < t0 + 500 by omega)
  · rw [CachedFile.get_fetches _ false (t0 + 1500) (t0 + 1500) v3
      (Or.inr (show (t0 + 1000 : Int) < t0 + 1500 by omega))]

/-- C8 witness: the fetch policy at concrete times, with `t0 = 1`. -/
theorem cachedFile_get_fetch_policy_witness :
    (0 : Int) < 1 ∧
    (((CachedFile.get (CachedFile.make Nat "GET" "u" 1000) false 3 4
        (Except.ok 7 : Except String Nat)).2.1 = true ↔
      (false = true ∨ (CachedFile.make Nat "GET" "u" 1000).expiry < 3)) ∧
    (¬(false = true ∨ (CachedFile.make Nat "GET" "u" 1000).expiry < 3) →
      CachedFile.get (CachedFile.make Nat "GET" "u" 1000) false 3 4
          (Except.ok 7 : Except String Nat) =
        (CachedFile.make Nat "GET" "u" 1000, false,
          Except.ok (CachedFile.make Nat "GET" "u" 1000).data)) ∧
    CachedFile.get (CachedFile.make Nat "GET" "f" 1000) false 1 1
        (Except.ok 1 : Except String Nat) =
      (CachedFile.mk "GET" "f" 1000 ((1 : Int) + 1000) (some 1), true,
        Except.ok (some 1)) ∧
    CachedFile.get (CachedFile.mk "GET" "f" 1000 ((1 : Int) + 1000) (some 1)) false
        ((1 : Int) + 500) ((1 : Int) + 500) (Except.ok 2 : Except String Nat) =
      (CachedFile.mk "GET" "f" 1000 ((1 : Int) + 1000) (some 1), false,
        Except.ok (some 1)) ∧
    (CachedFile.get (CachedFile.mk "GET" "f" 1000 ((1 : Int) + 1000) (some 1)) false
        ((1 : Int) + 1500) ((1 : Int) + 1500) (Except.ok 3 : Except String Nat)).2.1 =
      true) :=
  ⟨by decide,
    cachedFile_get_fetch_policy (CachedFile.make Nat "GET" "u" 1000) false 3 4
      (Except.ok 7) "f" 1 2 3 1 (by decide)⟩

/-- C1: `appendRows` appends exactly one new `tr` per row record, in argument
order, after the existing body rows; every rendered row holds exactly one
cell per heading, in the fixed heading order; and a rendered row depends only
on what each heading name looks up in the record, never on the key order or
on extra keys. -/
theorem appendRows_row_projection (hs : List Heading) (tbody : Node)
    (rows : List RowRecord) (htb : tbody.isElem = true)
    (hwf : ∀ r ∈ rows, rowWf r = true) :
    TableMaker.appendRowsBody tbody hs rows =
      some (appendWrappers tbody (rows.map (renderRowT hs))) ∧
    (appendWrappers tbody (rows.map (renderRowT hs))).childNodes =
      tbody.childNodes ++ rows.map (renderRowT hs) ∧
    (rows.map (renderRowT hs)).length = rows.length ∧
    (∀ row, (renderRowT hs row).childNodes = hs.map (renderCellT row)) ∧
    (∀ row, (renderRowT hs row).childNodes.length = hs.length) ∧
    (∀ row row' : RowRecord, (∀ k, row.lookup k = row'.lookup k) →
      renderRowT hs row = renderRowT hs row') := by
  refine ⟨appendRowsBody_eq hs tbody hwf, ?_, by rw [List.length_map], fun row => rfl,
    fun row => by rw [renderRowT, Node.childNodes, List.length_map], fun row row' hk => ?_⟩
  · cases tbody with
    | text s => cases htb
    | elem t i cls ch =>
      rw [appendWrappers_elem]
      rfl
  · have hfun : renderCellT row = renderCellT row' := by
      funext col
      unfold renderCellT
      rw [hk col.name]
    unfold renderRowT
    rw [hfun]

theorem applyBatches_elem (hs : List Heading) (t i : String) (cls : List String)
    (ch : List Node) (bs : List (List RowRecord))
    (hwf : ∀ b ∈ bs, ∀ r ∈ b, rowWf r = true) :
    applyBatches hs (Node.elem t i cls ch) bs =
      some (Node.elem t i cls
        (bs.foldl (fun acc b => acc ++ b.map (renderRowT hs)) ch)) := by
  induction bs generalizing ch with
  | nil => rfl
  | cons b rest ih =>
    show (TableMaker.appendRowsBody (Node.elem t i cls ch) hs b).bind _ = _
    rw [appendRowsBody_eq hs _ (hwf b (List.mem_cons_self b rest)), appendWrappers_elem]
    show applyBatches hs (Node.elem t i cls (ch ++ b.map (renderRowT hs))) rest = _
    rw [ih _ (fun b2 hb2 => hwf b2 (List.mem_cons_of_mem _ hb2))]
    rfl

theorem foldl_rows_all_elem (hs : List Heading) (bs : List (List RowRecord))
    (ch : List Node) (hch : ∀ c ∈ ch, c.isElem = true) :
    ∀ c ∈ bs.foldl (fun acc b => acc ++ b.map (renderRowT hs)) ch, c.isElem = true := by
  induction bs generalizing ch with
  | nil => exact hch
  | cons b rest ih =>
    rw [List.foldl_cons]
    apply ih
    intro c hc
    rw [List.mem_append] at hc
    cases hc with
    | inl h1 => exact hch c h1
    | inr h2 =>
      obtain ⟨r, _, rfl⟩ := List.mem_map.mp h2
      rfl

theorem filter_eq_nil_of_all_elem {cs : List Node} (h : ∀ c ∈ cs, c.isElem = true) :
    cs.filter (fun c => !c.isElem) = [] := by
  induction cs with
  | nil => rfl
  | cons c rest ih =>
    rw [List.filter_cons, h c (List.mem_cons_self c rest)]
    exact ih (fun c hcr => h c (List.mem_cons_of_mem _ hcr))

/-- C6: on a body reached from a fresh renderer by any `appendRows` history,
`clear()` followed by any sequence of `appendRows` batches produces exactly
the body a freshly constructed renderer with the same headings would produce
from those batches. -/
theorem clear_then_append_eq_fresh (inputs : List HeadingInput)
    (bs0 bs : List (List RowRecord)) (t : Node)
    (h0 : ∀ b ∈ bs0, ∀ r ∈ b, rowWf r = true)
    (hreach : applyBatches (TableMaker.make inputs).headings
        (TableMaker.make inputs).tbody bs0 = some t) :
    applyBatches (TableMaker.make inputs).headings (ParentWrapper.clear t) bs =
      applyBatches (TableMaker.make inputs).headings (TableMaker.make inputs).tbody bs := by
  have hreach2 : applyBatches (TableMaker.make inputs).headings
      (Node.elem "tbody" "" [] []) bs0 = some t := hreach
  rw [applyBatches_elem _ "tbody" "" [] [] bs0 h0] at hreach2
  have ht : t = Node.elem "tbody" "" []
      (bs0.foldl (fun acc b =>
        acc ++ b.map (renderRowT (TableMaker.make inputs).headings)) []) :=
    (Option.some_inj.mp hreach2).symm
  subst ht
  rw [ParentWrapper.clear_elem,
    filter_eq_nil_of_all_elem
      (foldl_rows_all_elem _ bs0 [] (fun c hc => absurd hc (List.not_mem_nil c)))]
  rfl

/-- C1 witness: the projection theorem applied to the two-heading table and
the three scenario rows. -/
theorem appendRows_row_projection_witness :
    ((ElementWrapper.make "tbody").isElem = true ∧
      ∀ r ∈ witnessRows, rowWf r = true) ∧
    (TableMaker.appendRowsBody (ElementWrapper.make "tbody") witnessHeadings witnessRows =
      some (appendWrappers (ElementWrapper.make "tbody")
        (witnessRows.map (renderRowT witnessHeadings))) ∧
    (appendWrappers (ElementWrapper.make "tbody")
        (witnessRows.map (renderRowT witnessHeadings))).childNodes =
      (ElementWrapper.make "tbody").childNodes ++
        witnessRows.map (renderRowT witnessHeadings) ∧
    (witnessRows.map (renderRowT witnessHeadings)).length = witnessRows.length ∧
    (∀ row, (renderRowT witnessHeadings row).childNodes =
      witnessHeadings.map (renderCellT row)) ∧
    (∀ row, (renderRowT witnessHeadings row).childNodes.length =
      witnessHeadings.length) ∧
    (∀ row row' : RowRecord, (∀ k, row.lookup k = row'.lookup k) →
      renderRowT witnessHeadings row = renderRowT witnessHeadings row')) :=
  ⟨⟨rfl, by decide⟩,
    appendRows_row_projection witnessHeadings (ElementWrapper.make "tbody") witnessRows
      rfl (by decide)⟩

/-- C6 witness: the reset equivalence applied with one already-appended batch
and one batch still to append. -/
theorem clear_then_append_eq_fresh_witness :
    ((∀ b ∈ [witnessRows], ∀ r ∈ b, rowWf r = true) ∧
      applyBatches (TableMaker.make witnessInputs).headings
          (TableMaker.make witnessInputs).tbody [witnessRows] =
        some (appendWrappers (ElementWrapper.make "tbody")
          (witnessRows.map (renderRowT witnessHeadings)))) ∧
    applyBatches (TableMaker.make witnessInputs).headings
        (ParentWrapper.clear (appendWrappers (ElementWrapper.make "tbody")
          (witnessRows.map (renderRowT witnessHeadings)))) [[[("t", JSVal.prim "11:00")]]] =
      applyBatches (TableMaker.make witnessInputs).headings
        (TableMaker.make witnessInputs).tbody [[[("t", JSVal.prim "11:00")]]] :=
  ⟨⟨by decide, rfl⟩,
    clear_then_append_eq_fresh witnessInputs [witnessRows] [[[("t", JSVal.prim "11:00")]]]
      (appendWrappers (ElementWrapper.make "tbody")
        (witnessRows.map (renderRowT witnessHeadings)))
      (by decide) rfl⟩

/-- C7: with pairwise-distinct heading names, construction gives the i-th
stored descriptor position `i` and the i-th input name, the by-name index
maps each heading name to exactly its descriptor, and `appendRows` leaves
both the heading sequence and the index untouched. -/
theorem headings_index_invariant (inputs : List HeadingInput)
    (hnd : (inputs.map HeadingInput.name).Nodup) :
    (TableMaker.make inputs).headings.length = inputs.length ∧
    (∀ j (hj : j < (TableMaker.make inputs).headings.length) (hj2 : j < inputs.length),
      ((TableMaker.make inputs).headings.get ⟨j, hj⟩).pos = j ∧
      ((TableMaker.make inputs).headings.get ⟨j, hj⟩).name =
        (inputs.get ⟨j, hj2⟩).name) ∧
    (∀ h ∈ (TableMaker.make inputs).headings,
      lookupName (TableMaker.make inputs).headings_by_name h.name = some h) ∧
    (∀ rows tm', (TableMaker.make inputs).appendRows rows = some tm' →
      tm'.headings = (TableMaker.make inputs).headings ∧
      tm'.headings_by_name = (TableMaker.make inputs).headings_by_name) := by
  have hnd' : ((buildHeadings 0 inputs).map Heading.name).Nodup := by
    rw [buildHeadings_names]
    exact hnd
  refine ⟨buildHeadings_length 0 inputs, ?_, ?_, ?_⟩
  · intro j hj hj2
    have hg := buildHeadings_get inputs 0 j hj hj2
    constructor
    · show ((buildHeadings 0 inputs).get ⟨j, hj⟩).pos = j
      rw [hg]
      show 0 + j = j
      omega
    · show ((buildHeadings 0 inputs).get ⟨j, hj⟩).name = (inputs.get ⟨j, hj2⟩).name
      rw [hg]
      rfl
  · intro h hmem
    have hfold : (buildHeadings 0 inputs).foldl (fun m h => jsObjInsert m h.name h) [] =
        [] ++ (buildHeadings 0 inputs).map (fun h => (h.name, h)) :=
      foldl_jsObjInsert _ [] (fun h2 _ hcontra => absurd hcontra (by rw [List.map_nil]; exact List.not_mem_nil _)) hnd'
    show lookupName
        ((buildHeadings 0 inputs).foldl (fun m h => jsObjInsert m h.name h) []) h.name =
      some h
    rw [hfold, List.nil_append]
    exact lookupName_map_pair hnd' hmem
  · intro rows tm' happ
    unfold TableMaker.appendRows at happ
    obtain ⟨tb, _, heq⟩ := Option.map_eq_some'.mp happ
    rw [← heq]
    exact ⟨rfl, rfl⟩

/-- C7 witness: the invariant at the two distinct-name headings, with one
appendRows call preserving the sequence and the index. -/
theorem headings_index_invariant_witness :
    (witnessInputs.map HeadingInput.name).Nodup ∧
    ((TableMaker.make witnessInputs).headings.length = witnessInputs.length ∧
    (∀ j (hj : j < (TableMaker.make witnessInputs).headings.length)
        (hj2 : j < witnessInputs.length),
      ((TableMaker.make witnessInputs).headings.get ⟨j, hj⟩).pos = j ∧
      ((TableMaker.make witnessInputs).headings.get ⟨j, hj⟩).name =
        (witnessInputs.get ⟨j, hj2⟩).name) ∧
    (∀ h ∈ (TableMaker.make witnessInputs).headings,
      lookupName (TableMaker.make witnessInputs).headings_by_name h.name = some h) ∧
    (∀ rows tm', (TableMaker.make witnessInputs).appendRows rows = some tm' →
      tm'.headings = (TableMaker.make witnessInputs).headings ∧
      tm'.headings_by_name = (TableMaker.make witnessInputs).headings_by_name)) :=
  ⟨by decide, headings_index_invariant witnessInputs (by decide)⟩
